import Mathlib

/-!
Verification of the pickle-eyes rating scripts against their specification.

The development shallowly embeds the repository's Python sources:
* `rank_ptp.py` — the heuristic "Contextual Rating Engine"
  (`update_ratings`, `process_matches`, the `RATING_CHANGE` policy table);
* `rank_ttt.py` — the CSV parsing front end for the TrueSkill-Through-Time
  collaborator (`parse_csv_for_ttt`), modelled up to the lists it feeds to
  the external estimator;
* `synergize.py` — the Partnership Synergy Analyzer, with the external
  TrueSkill library abstracted as an opaque environment (`TSEnv`);
* `show_isolated_pools.py` — the Pool Partitioner; the external graph
  library's connected-component query is implemented directly and proved
  correct against reflexive-transitive reachability.

Python `float` arithmetic is embedded as exact rationals `ℚ`; the one
transcendental expression (the logistic expected-win formula of
`synergize.py`) lives in `ℝ`.  CSV rows are records of the relevant parsed
string fields; `match_date` is embedded as a natural number key, since
`YYYY-MM-DD` strings compare chronologically and date parsing is external
to the claims.
-/

namespace PickleEyes

/-- Python dict of player ratings: partial map from player name to rating. -/
abbrev RatingMap := String → Option ℚ

/-- `ratings[k] = v` on a Python dict. -/
def setR (m : RatingMap) (k : String) (v : ℚ) : RatingMap :=
  fun x => if x = k then some v else m x

/-- One CSV row of match data, with the fields the scripts read.
Player-name fields are kept raw (the scripts call `.strip()` themselves);
the two score fields are kept as strings because `rank_ptp.py` and
`rank_ttt.py` parse them with Python `int()`, which can fail. -/
structure Row where
  matchDate : Nat
  gameId : Nat
  partner1 : String
  partner2 : String
  opponent1 : String
  opponent2 : String
  team1_points : String
  team2_points : String
deriving DecidableEq

/-- Whitespace as stripped by Python `str.strip()` (the characters that
occur in this data set). -/
def isSpaceChar (c : Char) : Bool :=
  c = ' ' || c = '\t' || c = '\n' || c = '\r'

/-- Model of Python `str.strip()`: drop leading and trailing whitespace. -/
def pyStrip (s : String) : String :=
  String.mk (((s.data.dropWhile isSpaceChar).reverse.dropWhile isSpaceChar).reverse)

/-- Value of a decimal digit character, `none` on a non-digit. -/
def digitVal (c : Char) : Option Nat :=
  if 48 ≤ c.toNat ∧ c.toNat ≤ 57 then some (c.toNat - 48) else none

/-- Accumulate a decimal numeral left to right; fails on any non-digit. -/
def digitsValAux : Nat → List Char → Option Nat
  | acc, [] => some acc
  | acc, c :: cs =>
    match digitVal c with
    | some d => digitsValAux (10 * acc + d) cs
    | none => none

/-- A non-empty all-digit numeral. -/
def digitsVal : List Char → Option Nat
  | [] => none
  | cs => digitsValAux 0 cs

/-- Model of Python `int(s)` on a string: optional surrounding whitespace,
optional sign, then a non-empty run of decimal digits; anything else raises
`ValueError`, modelled as `none`. -/
def parseInt (s : String) : Option Int :=
  match (pyStrip s).data with
  | '-' :: cs => (digitsVal cs).map (fun n => -(n : Int))
  | '+' :: cs => (digitsVal cs).map (fun n => (n : Int))
  | cs => (digitsVal cs).map (fun n => (n : Int))

/-! ### Constants of `rank_ptp.py` -/

def BASE_RATING_DELTA : ℚ := 35 / 10000

def WINNING_BONUS : ℚ := 1 / 100

def TOSSUP_THRESHOLD : ℚ := 1 / 10

def SLIGHT_THRESHOLD : ℚ := 2 / 10

def BLOWOUT_MARGIN : ℤ := 12

def NARROW_MARGIN : ℤ := 3

def default_rating : ℚ := 7 / 2

/-- Winner context relative to expectations (`winner_context` strings). -/
inductive WContext
  | tossup
  | favored
  | underdog
deriving DecidableEq

/-- Level of favoredness (`favoredness_level` strings; `none` for tossups). -/
inductive FLevel
  | slight
  | heavy
deriving DecidableEq

/-- Margin of the game result (`result_margin` strings). -/
inductive RMargin
  | narrow
  | solid
  | blowout
deriving DecidableEq

/-- The `RATING_CHANGE` dict of `rank_ptp.py`: multipliers keyed by
(winner context, favoredness level, result margin); `none` for keys not in
the dict. -/
def RATING_CHANGE : WContext → Option FLevel → RMargin → Option Nat
  | .underdog, some .heavy, .narrow => some 25
  | .underdog, some .heavy, .solid => some 30
  | .underdog, some .heavy, .blowout => some 35
  | .underdog, some .slight, .narrow => some 18
  | .underdog, some .slight, .solid => some 22
  | .underdog, some .slight, .blowout => some 26
  | .tossup, none, .narrow => some 12
  | .tossup, none, .solid => some 15
  | .tossup, none, .blowout => some 18
  | .favored, some .slight, .narrow => some 8
  | .favored, some .slight, .solid => some 10
  | .favored, some .slight, .blowout => some 12
  | .favored, some .heavy, .narrow => some 3
  | .favored, some .heavy, .solid => some 5
  | .favored, some .heavy, .blowout => some 7
  | _, _, _ => none

/-- `RATING_CHANGE.get(key, 10)`. -/
def ratingChangeMultiplier (wc : WContext) (lvl : Option FLevel) (rm : RMargin) : Nat :=
  (RATING_CHANGE wc lvl rm).getD 10

/-- Lines 95–109 of `rank_ptp.py`: favoredness classification.  Returns the
`winner_context` together with the `favoredness_level` (`none` on tossups).
`team1_won` is `s1 > s2` as computed by the caller. -/
def classifyContext (team1_rating team2_rating : ℚ) (team1_won : Bool) :
    WContext × Option FLevel :=
  let rating_diff := |team1_rating - team2_rating|
  if rating_diff < TOSSUP_THRESHOLD then
    (WContext.tossup, none)
  else
    let favored_team1 : Bool := decide (team2_rating < team1_rating)
    let lvl := if rating_diff < SLIGHT_THRESHOLD then FLevel.slight else FLevel.heavy
    let wc :=
      if (team1_won && favored_team1) || (!team1_won && !favored_team1) then
        WContext.favored
      else
        WContext.underdog
    (wc, some lvl)

/-- Lines 111–117 of `rank_ptp.py`: margin classification. -/
def classifyMargin (s1 s2 : ℤ) : RMargin :=
  let margin := |s1 - s2|
  if BLOWOUT_MARGIN ≤ margin then RMargin.blowout
  else if NARROW_MARGIN ≤ margin then RMargin.solid
  else RMargin.narrow

/-- Lines 76–136 of `rank_ptp.py`: the arithmetic core of `update_ratings`
on a non-forfeited game with already-parsed scores — team averages,
classification, multiplier lookup, and the four rating writes (in source
order `p1, p2, o1, o2`). -/
def applyGame (bonus : ℚ) (ratings : RatingMap) (p1 p2 o1 o2 : String)
    (s1 s2 : ℤ) : RatingMap :=
  let r1 := (ratings p1).getD default_rating
  let r2 := (ratings p2).getD default_rating
  let r3 := (ratings o1).getD default_rating
  let r4 := (ratings o2).getD default_rating
  let team1_rating := (r1 + r2) / 2
  let team2_rating := (r3 + r4) / 2
  let team1_won : Bool := decide (s2 < s1)
  let c := classifyContext team1_rating team2_rating team1_won
  let result_margin := classifyMargin s1 s2
  let change := BASE_RATING_DELTA * (ratingChangeMultiplier c.1 c.2 result_margin : ℚ)
  let delta := change / 2
  if team1_won then
    setR (setR (setR (setR ratings
      p1 (r1 + delta + bonus)) p2 (r2 + delta + bonus)) o1 (r3 - delta)) o2 (r4 - delta)
  else
    setR (setR (setR (setR ratings
      p1 (r1 - delta)) p2 (r2 - delta)) o1 (r3 + delta + bonus)) o2 (r4 + delta + bonus)

/-- `ratings.get(p, default_rating)`: a player's current rating or the
default. -/
def getR (ratings : RatingMap) (p : String) : ℚ :=
  (ratings p).getD default_rating

/-- The per-player `delta` (line 122 of `rank_ptp.py`) the engine computes
for a game, as a function of the pre-game ratings and scores. -/
def gameDelta (ratings : RatingMap) (p1 p2 o1 o2 : String) (s1 s2 : ℤ) : ℚ :=
  let team1_rating := (getR ratings p1 + getR ratings p2) / 2
  let team2_rating := (getR ratings o1 + getR ratings o2) / 2
  let c := classifyContext team1_rating team2_rating (decide (s2 < s1))
  BASE_RATING_DELTA * (ratingChangeMultiplier c.1 c.2 (classifyMargin s1 s2) : ℚ) / 2

/-- `update_ratings(ratings, row)` of `rank_ptp.py`, parameterized by the
winning bonus (the script pins it to `WINNING_BONUS`; the spec treats it as
a tunable).  A forfeited row (sentinel `DEFAULT` in any player slot) is
skipped, returning the mapping untouched; a score that `int()` cannot parse
raises `ValueError`, modelled as `Except.error`. -/
def update_ratings (bonus : ℚ) (ratings : RatingMap) (row : Row) :
    Except Unit RatingMap :=
  let p1 := pyStrip row.partner1
  let p2 := pyStrip row.partner2
  let o1 := pyStrip row.opponent1
  let o2 := pyStrip row.opponent2
  if "DEFAULT" ∈ [p1, p2, o1, o2] then
    Except.ok ratings
  else
    match parseInt row.team1_points, parseInt row.team2_points with
    | some s1, some s2 => Except.ok (applyGame bonus ratings p1 p2 o1 o2 s1 s2)
    | _, _ => Except.error ()

/-- `process_matches` of `rank_ptp.py`: fold `update_ratings` over the rows
in the order the CSV reader yields them; an uncaught `ValueError` aborts the
run. -/
def process_matches (ratings : RatingMap) : List Row → Except Unit RatingMap
  | [] => Except.ok ratings
  | row :: rest =>
    match update_ratings WINNING_BONUS ratings row with
    | Except.ok r => process_matches r rest
    | Except.error e => Except.error e

/-- Final rating of one player after a full `process_matches` run
(`none` when the run aborted or the player is absent). -/
def finalRatingOf (r0 : RatingMap) (rows : List Row) (p : String) : Option ℚ :=
  match process_matches r0 rows with
  | Except.ok r => r p
  | Except.error _ => none

/-- Whether a `process_matches` run aborts with an uncaught exception. -/
def runAborts (r0 : RatingMap) (rows : List Row) : Bool :=
  match process_matches r0 rows with
  | Except.ok _ => false
  | Except.error _ => true

/-! ### A stable sort

Python `sorted` is a stable sort by key.  It is embedded as a stable
insertion sort (equal-key elements keep their input order), which the
kernel can evaluate on concrete inputs. -/

/-- Insert `x` after every element `y` of `l` with `le y x` (so after any
element with an equal key: stable). -/
def insertSorted {α : Type} (le : α → α → Bool) (x : α) : List α → List α
  | [] => [x]
  | y :: ys => if le y x then y :: insertSorted le x ys else x :: y :: ys

/-- Stable insertion sort: model of Python `sorted(l, key=...)`. -/
def stableSort {α : Type} (le : α → α → Bool) (l : List α) : List α :=
  l.foldl (fun acc x => insertSorted le x acc) []

/-- The ordering on rows the specification claims the engine sorts by:
non-decreasing `(match_date, game_id)`. -/
def gameKeyLe (a b : Row) : Bool :=
  decide (a.matchDate < b.matchDate) ||
    (decide (a.matchDate = b.matchDate) && decide (a.gameId ≤ b.gameId))

/-- Sorting the games chronologically, as the specification claims the
engine does before folding. -/
def sortGames (rows : List Row) : List Row :=
  stableSort gameKeyLe rows

/-! ### `rank_ttt.py`: the CSV parsing front end for the probabilistic
estimator.

`parse_csv_for_ttt` is embedded up to the per-game data it hands to the
external TrueSkill-Through-Time collaborator: composition, result and match
date.  The `player_teams` and `players` side products, which the claims do
not touch, are omitted; note that in the source a row's team assignment
happens *before* score parsing, so it is unaffected by the skip modelled
here.  Date parsing (`strptime`) is abstracted by the numeric `matchDate`
field of `Row`. -/

structure TttGame where
  composition : List (List String)
  result : List Nat
  matchDate : Nat
deriving DecidableEq

/-- The per-row work of `parse_csv_for_ttt` (lines 26–58 of `rank_ttt.py`):
skip forfeits, skip rows whose scores `int()` rejects, otherwise record
`[[p1, p2], [o1, o2]]` with result `[1, 0]` iff team 1 scored more. -/
def parseRowTtt (row : Row) : Option TttGame :=
  let p1 := pyStrip row.partner1
  let p2 := pyStrip row.partner2
  let o1 := pyStrip row.opponent1
  let o2 := pyStrip row.opponent2
  if "DEFAULT" ∈ [p1, p2, o1, o2] then none
  else
    match parseInt row.team1_points, parseInt row.team2_points with
    | some s1, some s2 =>
      some ⟨[[p1, p2], [o1, o2]], if s2 < s1 then [1, 0] else [0, 1], row.matchDate⟩
    | _, _ => none

/-- The sort key of `parse_csv_for_ttt` lines 60–63: match date only. -/
def dateLe (a b : TttGame) : Bool :=
  decide (a.matchDate ≤ b.matchDate)

/-- `parse_csv_for_ttt`, restricted to the game list it produces: parse the
kept rows, then stably sort them by match date (Python `sorted` with key
`match_dates[i]`). -/
def parse_csv_for_ttt (rows : List Row) : List TttGame :=
  stableSort dateLe (rows.filterMap parseRowTtt)

/-! ### `synergize.py`: the Partnership Synergy Analyzer

The external TrueSkill library (`ts.rate`, `ts.expose`, the default
`ts.Rating`) is an opaque collaborator per the spec, abstracted as a
`TSEnv`: a rating type, a default rating, a rate function taking the winner
pair first, and an exposure function to a scalar.  Everything the script
itself computes is embedded faithfully on top of it. -/

/-- Opaque interface to the TrueSkill collaborator used by `synergize.py`. -/
structure TSEnv (Rating : Type) where
  defaultRating : Rating
  rate : Rating × Rating → Rating × Rating → (Rating × Rating) × (Rating × Rating)
  expose : Rating → ℚ

/-- One entry of a `partnership_stats[team]['matches']` list. -/
structure MatchRec where
  won : Bool
  team_strength : ℚ
  opponent_strength : ℚ
  score_diff : ℤ
  opponents : String × String
deriving DecidableEq

/-- One value of the `partnership_stats` defaultdict (the `'matches'` list
is named `matchList`, `matches` being reserved in Lean). -/
structure PStats where
  wins : Nat
  losses : Nat
  matchList : List MatchRec
deriving DecidableEq

/-- The defaultdict's initial value `{'wins': 0, 'losses': 0, 'matches': []}`. -/
def emptyStats : PStats := ⟨0, 0, []⟩

/-- The mutable module state of `synergize.py`: `player_ratings` (a
defaultdict, hence a total function) and `partnership_stats`. -/
structure SynState (Rating : Type) where
  ratings : String → Rating
  stats : String × String → PStats

/-- The initial module state: every player at the default rating, every
partnership at empty stats. -/
def initSynState {Rating : Type} (env : TSEnv Rating) : SynState Rating :=
  ⟨fun _ => env.defaultRating, fun _ => emptyStats⟩

/-- Strict lexicographic comparison of character lists by code point, the
order Python string comparison uses. -/
def strLtb : List Char → List Char → Bool
  | _, [] => false
  | [], _ :: _ => true
  | a :: as, b :: bs => decide (a.toNat < b.toNat) || (decide (a = b) && strLtb as bs)

/-- `a ≤ b` on strings (Python's total order): `¬ (b < a)`. -/
def strLeb (a b : String) : Bool :=
  !(strLtb b.data a.data)

/-- `tuple(sorted([p1, p2]))`: the canonical (alphabetical) partnership key. -/
def sort2 (a b : String) : String × String :=
  if strLtb b.data a.data then (b, a) else (a, b)

/-- Append one match record to a partnership's stats and bump the win/loss
counter, as lines 76–88 of `synergize.py` do. -/
def addRec (stats : String × String → PStats) (team : String × String)
    (r : MatchRec) : String × String → PStats :=
  fun k =>
    if k = team then
      { wins := (stats team).wins + (if r.won then 1 else 0),
        losses := (stats team).losses + (if r.won then 0 else 1),
        matchList := (stats team).matchList ++ [r] }
    else stats k

/-- `update_ratings(p1, p2, o1, o2, score1, score2)` of `synergize.py`:
normalize the team keys, rate through the collaborator (winner listed
first), write the new ratings back, then record a match entry for both
partnerships whose strengths are exposure sums of the *just-updated*
`player_ratings` state. -/
def update_ratings_syn {Rating : Type} (env : TSEnv Rating) (st : SynState Rating)
    (p1 p2 o1 o2 : String) (score1 score2 : ℤ) : SynState Rating :=
  let team_a := sort2 p1 p2
  let team_b := sort2 o1 o2
  let ratings_a := (st.ratings team_a.1, st.ratings team_a.2)
  let ratings_b := (st.ratings team_b.1, st.ratings team_b.2)
  let rated :=
    if score2 < score1 then
      env.rate ratings_a ratings_b
    else
      ((env.rate ratings_b ratings_a).2, (env.rate ratings_b ratings_a).1)
  let new_a := rated.1
  let new_b := rated.2
  let ratings1 : String → Rating := fun q =>
    if q = team_b.2 then new_b.2
    else if q = team_b.1 then new_b.1
    else if q = team_a.2 then new_a.2
    else if q = team_a.1 then new_a.1
    else st.ratings q
  let strength := fun t : String × String => env.expose (ratings1 t.1) + env.expose (ratings1 t.2)
  let recA : MatchRec :=
    ⟨decide (score2 < score1), strength team_a, strength team_b, score1 - score2, team_b⟩
  let recB : MatchRec :=
    ⟨decide (score1 < score2), strength team_b, strength team_a, score2 - score1, team_a⟩
  let stats1 := addRec st.stats team_a recA
  let stats2 := addRec stats1 team_b recB
  ⟨ratings1, stats2⟩

/-- Folding `update_ratings_syn` over a list of games, as the reader loop of
`synergize.py`'s `main` does for the non-forfeited, parseable rows. -/
def processGamesSyn {Rating : Type} (env : TSEnv Rating) (st : SynState Rating) :
    List (String × String × String × String × ℤ × ℤ) → SynState Rating
  | [] => st
  | (p1, p2, o1, o2, s1, s2) :: rest =>
    processGamesSyn env (update_ratings_syn env st p1 p2 o1 o2 s1 s2) rest

/-- The logistic expected-win probability of `calculate_synergy` line 108:
`1 / (1 + 10 ** ((opponent_strength - team_strength) / 10))`. -/
noncomputable def expectedWin (team_strength opponent_strength : ℚ) : ℝ :=
  1 / (1 + (10 : ℝ) ^ (((opponent_strength - team_strength) / 10 : ℚ) : ℝ))

/-- The record returned by `calculate_synergy` on success. -/
structure SynergyOut where
  synergy_score : ℝ
  win_rate : ℚ
  matches_played : Nat
  avg_score_diff : ℚ
  individual_strength : ℚ

/-- `calculate_synergy(partnership, stats)` of `synergize.py`: `None`
(modelled `none`) below 2 matches, else the synergy metrics. -/
noncomputable def calculate_synergy {Rating : Type} (env : TSEnv Rating)
    (ratings : String → Rating) (partnership : String × String) (stats : PStats) :
    Option SynergyOut :=
  if stats.matchList.length < 2 then none
  else
    let individual_strength :=
      env.expose (ratings partnership.1) + env.expose (ratings partnership.2)
    let total_performance : ℝ :=
      (stats.matchList.map (fun m =>
        (if m.won then (1 : ℝ) else 0) - expectedWin m.team_strength m.opponent_strength)).sum
    let avg_performance := total_performance / (stats.matchList.length : ℝ)
    let win_rate : ℚ := (stats.wins : ℚ) / ((stats.wins : ℚ) + (stats.losses : ℚ))
    let avg_score_diff : ℚ :=
      (stats.matchList.map (fun m => (m.score_diff : ℚ))).sum / (stats.matchList.length : ℚ)
    some ⟨avg_performance * 100, win_rate, stats.matchList.length, avg_score_diff,
      individual_strength⟩

/-! ### `show_isolated_pools.py`: the Pool Partitioner

The script builds an undirected `networkx` graph and asks the library for
its connected components.  The graph is embedded as the list of edges the
script adds; the library's connected-component query is implemented by a
fuelled breadth-first closure and proved correct against
reflexive-transitive reachability below. -/

/-- Lines 19–36 of `show_isolated_pools.py`: the edges one row contributes —
none for a forfeited game, else the two teammate edges and the four
cross-team edges. -/
def rowEdges (row : Row) : List (String × String) :=
  let p1 := pyStrip row.partner1
  let p2 := pyStrip row.partner2
  let o1 := pyStrip row.opponent1
  let o2 := pyStrip row.opponent2
  if "DEFAULT" ∈ [p1, p2, o1, o2] then []
  else [(p1, p2), (o1, o2), (p1, o1), (p1, o2), (p2, o1), (p2, o2)]

/-- All edges `find_player_pools` adds to the graph. -/
def poolEdges (rows : List Row) : List (String × String) :=
  rows.flatMap rowEdges

/-- The graph's vertices: endpoints of added edges (`add_edge` inserts both
endpoints as nodes). -/
def nodesOf (edges : List (String × String)) : List String :=
  (edges.flatMap (fun e => [e.1, e.2])).dedup

/-- Undirected adjacency in the edge list. -/
def adjb (edges : List (String × String)) (u v : String) : Bool :=
  edges.any (fun e => (decide (e.1 = u) && decide (e.2 = v)) ||
    (decide (e.1 = v) && decide (e.2 = u)))

/-- Reachability in the undirected graph: the mathematical meaning of
"`u` and `v` are in the same connected component". -/
def Reach (edges : List (String × String)) (u v : String) : Prop :=
  Relation.ReflTransGen (fun a b => adjb edges a b = true) u v

/-- One breadth-first expansion: adjoin every new node adjacent to the
current set. -/
def growOnce (edges : List (String × String)) (s : List String) : List String :=
  s ++ (nodesOf edges).filter (fun v => decide (v ∉ s ∧ ∃ u ∈ s, adjb edges u v = true))

/-- `n` expansions. -/
def growN (edges : List (String × String)) : Nat → List String → List String
  | 0, s => s
  | n + 1, s => growN edges n (growOnce edges s)

/-- The connected component containing `v`: expand `{v}` to a fixed point
(`|nodes|` rounds always suffice). -/
def componentOf (edges : List (String × String)) (v : String) : List String :=
  growN edges (nodesOf edges).length [v]

/-- Iterate over the vertices, emitting the component of each not-yet-seen
vertex: the components of the graph, as `nx.connected_components` yields
them. -/
def componentsAux (edges : List (String × String)) :
    List String → List String → List (List String)
  | [], _ => []
  | v :: vs, seen =>
    if v ∈ seen then
      componentsAux edges vs seen
    else
      componentOf edges v :: componentsAux edges vs (seen ++ componentOf edges v)

/-- `list(nx.connected_components(G))`. -/
def connected_components (edges : List (String × String)) : List (List String) :=
  componentsAux edges (nodesOf edges) []

/-- Descending-size comparison, the `key=lambda p: -len(p)` sort of `main`. -/
def sizeGe (a b : List String) : Bool :=
  decide (b.length ≤ a.length)

/-- The pool report of `main` in `show_isolated_pools.py`: each component's
membership alphabetically sorted (`sorted(pool)`), the components sorted by
descending size. -/
def poolReport (rows : List Row) : List (List String) :=
  stableSort sizeGe
    ((connected_components (poolEdges rows)).map (fun c => stableSort strLeb c))

/-! ### Concrete inputs used in the claim instances -/

/-- An empty initial ratings CSV. -/
def emptyRatings : RatingMap := fun _ => none

/-- Initial ratings putting A and B at 3.59 and C and D at 3.50, so that one
more win moves the team difference across `TOSSUP_THRESHOLD`. -/
def c1_ratings0 : RatingMap := fun p =>
  if p = "A" then some (359 / 100)
  else if p = "B" then some (359 / 100)
  else if p = "C" then some (7 / 2)
  else if p = "D" then some (7 / 2)
  else none

/-- Earlier game: A,B beat C,D 11–9. -/
def c1_g1 : Row := ⟨20240301, 1, "A", "B", "C", "D", "11", "9"⟩

/-- Later game: A,B beat C,D 11–3. -/
def c1_g2 : Row := ⟨20240302, 2, "A", "B", "C", "D", "11", "3"⟩

/-- The end-to-end example game of the spec: A,B beat C,D 11–2, everyone at
the default rating. -/
def c3_row : Row := ⟨20240301, 1, "A", "B", "C", "D", "11", "2"⟩

/-- A game whose `team1_points` is not a parseable integer. -/
def c4_bad : Row := ⟨20240301, 1, "A", "B", "C", "D", "abc", "2"⟩

/-- A well-formed game after the malformed one. -/
def c4_good : Row := ⟨20240302, 2, "A", "B", "C", "D", "11", "2"⟩

/-- A clean non-forfeit game with four distinct players. -/
def c2_row : Row := ⟨20240301, 1, "A", "B", "C", "D", "11", "2"⟩

/-- A forfeited game: the sentinel `DEFAULT` in the second player slot. -/
def c6_row : Row := ⟨20240301, 1, "A", "DEFAULT", "C", "D", "11", "2"⟩

/-- A concrete instantiation of the opaque TrueSkill collaborator for
witnesses and counterexamples: ratings are rationals starting at 0, a win
moves each winner up by 1 and each loser down by 1, exposure is the
identity. -/
def toyEnv : TSEnv ℚ :=
  ⟨0, fun w l => ((w.1 + 1, w.2 + 1), (l.1 - 1, l.2 - 1)), id⟩

/-- The analyzer state after A,B beat C,D twice (11–5 then 11–7) under
`toyEnv`. -/
def c5_final : SynState ℚ :=
  processGamesSyn toyEnv (initSynState toyEnv)
    [("A", "B", "C", "D", 11, 5), ("A", "B", "C", "D", 11, 7)]

/-- Partnership stats holding exactly one recorded match. -/
def oneStats : PStats := ⟨1, 0, [⟨true, 2, -2, 6, ("C", "D")⟩]⟩

/-- Partnership stats holding exactly two recorded matches. -/
def twoStats : PStats := ⟨2, 0, [⟨true, 2, -2, 6, ("C", "D")⟩, ⟨true, 4, -4, 4, ("C", "D")⟩]⟩

/-- A second game among four fresh players, disconnected from `c2_row`. -/
def c9_row2 : Row := ⟨20240302, 2, "E", "F", "G", "H", "11", "5"⟩

/-- Two games over disjoint player sets: two pools. -/
def c9_rows : List Row := [c2_row, c9_row2]

/-! ### Stable-sort lemmas -/

theorem insertSorted_perm {α : Type} (le : α → α → Bool) (x : α) (l : List α) :
    (insertSorted le x l).Perm (x :: l) := by
  induction l with
  | nil => simp [insertSorted]
  | cons y ys ih =>
    by_cases h : le y x
    · simp only [insertSorted, if_pos h]
      exact (ih.cons y).trans (List.Perm.swap x y ys)
    · simp [insertSorted, h]

theorem stableSort_perm_aux {α : Type} (le : α → α → Bool) :
    ∀ (l acc : List α),
      (l.foldl (fun acc x => insertSorted le x acc) acc).Perm (acc ++ l) := by
  intro l
  induction l with
  | nil => intro acc; simp
  | cons x xs ih =>
    intro acc
    have h1 : (xs.foldl (fun acc x => insertSorted le x acc)
        (insertSorted le x acc)).Perm (insertSorted le x acc ++ xs) := ih _
    have h2 : (insertSorted le x acc ++ xs).Perm ((x :: acc) ++ xs) :=
      (insertSorted_perm le x acc).append_right xs
    have h3 : ((x :: acc) ++ xs).Perm (acc ++ x :: xs) := List.perm_middle.symm
    exact (h1.trans h2).trans h3

theorem stableSort_perm {α : Type} (le : α → α → Bool) (l : List α) :
    (stableSort le l).Perm l := by
  simpa [stableSort] using stableSort_perm_aux le l []

theorem mem_insertSorted {α : Type} (le : α → α → Bool) (x a : α) (l : List α) :
    a ∈ insertSorted le x l ↔ a = x ∨ a ∈ l := by
  rw [(insertSorted_perm le x l).mem_iff, List.mem_cons]

theorem pairwise_insertSorted {α : Type} (le : α → α → Bool)
    (htr : ∀ a b c, le a b = true → le b c = true → le a c = true)
    (hto : ∀ a b, le a b = true ∨ le b a = true)
    (x : α) (l : List α) (h : l.Pairwise (fun a b => le a b = true)) :
    (insertSorted le x l).Pairwise (fun a b => le a b = true) := by
  induction l with
  | nil => simp [insertSorted]
  | cons y ys ih =>
    rcases List.pairwise_cons.mp h with ⟨hy, hys⟩
    by_cases hle : le y x
    · simp only [insertSorted, if_pos hle]
      refine List.pairwise_cons.mpr ⟨?_, ih hys⟩
      intro z hz
      rcases (mem_insertSorted le x z ys).mp hz with rfl | hz'
      · exact hle
      · exact hy z hz'
    · have hxy : le x y = true := by
        rcases hto x y with h' | h'
        · exact h'
        · exact absurd h' hle
      simp only [insertSorted, if_neg hle]
      refine List.pairwise_cons.mpr ⟨?_, h⟩
      intro z hz
      rcases List.mem_cons.mp hz with rfl | hz'
      · exact hxy
      · exact htr x y z hxy (hy z hz')

theorem pairwise_stableSort_aux {α : Type} (le : α → α → Bool)
    (htr : ∀ a b c, le a b = true → le b c = true → le a c = true)
    (hto : ∀ a b, le a b = true ∨ le b a = true) :
    ∀ (l acc : List α), acc.Pairwise (fun a b => le a b = true) →
      (l.foldl (fun acc x => insertSorted le x acc) acc).Pairwise
        (fun a b => le a b = true) := by
  intro l
  induction l with
  | nil => intro acc h; exact h
  | cons x xs ih =>
    intro acc h
    exact ih _ (pairwise_insertSorted le htr hto x acc h)

theorem pairwise_stableSort {α : Type} (le : α → α → Bool)
    (htr : ∀ a b c, le a b = true → le b c = true → le a c = true)
    (hto : ∀ a b, le a b = true ∨ le b a = true) (l : List α) :
    (stableSort le l).Pairwise (fun a b => le a b = true) :=
  pairwise_stableSort_aux le htr hto l [] (List.Pairwise.nil)

theorem insertSorted_append {α : Type} (le : α → α → Bool) (x : α) (l : List α)
    (h : ∀ y ∈ l, le y x = true) : insertSorted le x l = l ++ [x] := by
  induction l with
  | nil => rfl
  | cons y ys ih =>
    simp only [insertSorted, if_pos (h y (List.mem_cons_self y ys))]
    rw [ih (fun z hz => h z (List.mem_cons_of_mem y hz))]
    rfl

theorem stableSort_of_sorted_aux {α : Type} (le : α → α → Bool) :
    ∀ (l acc : List α), l.Pairwise (fun a b => le a b = true) →
      (∀ a ∈ acc, ∀ b ∈ l, le a b = true) →
      l.foldl (fun acc x => insertSorted le x acc) acc = acc ++ l := by
  intro l
  induction l with
  | nil => intro acc _ _; simp
  | cons x xs ih =>
    intro acc h hcross
    rcases List.pairwise_cons.mp h with ⟨hx, hxs⟩
    have h1 : insertSorted le x acc = acc ++ [x] :=
      insertSorted_append le x acc
        (fun y hy => hcross y hy x (List.mem_cons_self x xs))
    have h2 : ∀ a ∈ acc ++ [x], ∀ b ∈ xs, le a b = true := by
      intro a ha b hb
      rcases List.mem_append.mp ha with ha' | ha'
      · exact hcross a ha' b (List.mem_cons_of_mem x hb)
      · rcases List.mem_singleton.mp ha' with rfl
        exact hx b hb
    calc (x :: xs).foldl (fun acc x => insertSorted le x acc) acc
        = xs.foldl (fun acc x => insertSorted le x acc) (insertSorted le x acc) := rfl
      _ = xs.foldl (fun acc x => insertSorted le x acc) (acc ++ [x]) := by rw [h1]
      _ = (acc ++ [x]) ++ xs := ih _ hxs h2
      _ = acc ++ x :: xs := by simp

theorem stableSort_of_sorted {α : Type} (le : α → α → Bool) (l : List α)
    (h : l.Pairwise (fun a b => le a b = true)) : stableSort le l = l := by
  simpa [stableSort] using stableSort_of_sorted_aux le l [] h (by intro a ha; cases ha)

/-! ### Basic lemmas about the engine's control flow -/

theorem update_ratings_forfeit (bonus : ℚ) (ratings : RatingMap) (row : Row)
    (h : "DEFAULT" ∈ [pyStrip row.partner1, pyStrip row.partner2,
      pyStrip row.opponent1, pyStrip row.opponent2]) :
    update_ratings bonus ratings row = Except.ok ratings := by
  simp only [update_ratings]
  rw [if_pos h]

theorem update_ratings_ok (bonus : ℚ) (ratings : RatingMap) (row : Row) (s1 s2 : ℤ)
    (hf : "DEFAULT" ∉ [pyStrip row.partner1, pyStrip row.partner2,
      pyStrip row.opponent1, pyStrip row.opponent2])
    (h1 : parseInt row.team1_points = some s1)
    (h2 : parseInt row.team2_points = some s2) :
    update_ratings bonus ratings row = Except.ok (applyGame bonus ratings
      (pyStrip row.partner1) (pyStrip row.partner2)
      (pyStrip row.opponent1) (pyStrip row.opponent2) s1 s2) := by
  simp only [update_ratings]
  rw [if_neg hf, h1, h2]

theorem update_ratings_badScore (bonus : ℚ) (ratings : RatingMap) (row : Row)
    (hf : "DEFAULT" ∉ [pyStrip row.partner1, pyStrip row.partner2,
      pyStrip row.opponent1, pyStrip row.opponent2])
    (h : parseInt row.team1_points = none ∨ parseInt row.team2_points = none) :
    update_ratings bonus ratings row = Except.error () := by
  simp only [update_ratings]
  rw [if_neg hf]
  rcases h with h | h
  · rw [h]
  · rw [h]
    rcases parseInt row.team1_points with _ | s <;> rfl

theorem process_matches_cons_ok (ratings r : RatingMap) (row : Row) (rest : List Row)
    (h : update_ratings WINNING_BONUS ratings row = Except.ok r) :
    process_matches ratings (row :: rest) = process_matches r rest := by
  simp only [process_matches, h]

theorem process_matches_cons_err (ratings : RatingMap) (row : Row) (rest : List Row)
    (h : update_ratings WINNING_BONUS ratings row = Except.error ()) :
    process_matches ratings (row :: rest) = Except.error () := by
  simp only [process_matches, h]

/-! ### Pointwise evaluation of `applyGame` -/

theorem applyGame_frame (bonus : ℚ) (ratings : RatingMap) (p1 p2 o1 o2 : String)
    (s1 s2 : ℤ) (q : String)
    (hq1 : q ≠ p1) (hq2 : q ≠ p2) (hq3 : q ≠ o1) (hq4 : q ≠ o2) :
    applyGame bonus ratings p1 p2 o1 o2 s1 s2 q = ratings q := by
  by_cases hw : s2 < s1 <;>
    simp [applyGame, setR, hq1, hq2, hq3, hq4, hw]

theorem applyGame_eval (bonus : ℚ) (ratings : RatingMap) (p1 p2 o1 o2 : String) (s1 s2 : ℤ)
    (h12 : p1 ≠ p2) (h13 : p1 ≠ o1) (h14 : p1 ≠ o2)
    (h23 : p2 ≠ o1) (h24 : p2 ≠ o2) (h34 : o1 ≠ o2) :
    (applyGame bonus ratings p1 p2 o1 o2 s1 s2 p1 =
      some (if s2 < s1 then getR ratings p1 + gameDelta ratings p1 p2 o1 o2 s1 s2 + bonus
        else getR ratings p1 - gameDelta ratings p1 p2 o1 o2 s1 s2)) ∧
    (applyGame bonus ratings p1 p2 o1 o2 s1 s2 p2 =
      some (if s2 < s1 then getR ratings p2 + gameDelta ratings p1 p2 o1 o2 s1 s2 + bonus
        else getR ratings p2 - gameDelta ratings p1 p2 o1 o2 s1 s2)) ∧
    (applyGame bonus ratings p1 p2 o1 o2 s1 s2 o1 =
      some (if s2 < s1 then getR ratings o1 - gameDelta ratings p1 p2 o1 o2 s1 s2
        else getR ratings o1 + gameDelta ratings p1 p2 o1 o2 s1 s2 + bonus)) ∧
    (applyGame bonus ratings p1 p2 o1 o2 s1 s2 o2 =
      some (if s2 < s1 then getR ratings o2 - gameDelta ratings p1 p2 o1 o2 s1 s2
        else getR ratings o2 + gameDelta ratings p1 p2 o1 o2 s1 s2 + bonus)) := by
  by_cases hw : s2 < s1 <;>
    simp [applyGame, setR, gameDelta, getR, hw, h12, h13, h14, h23, h24, h34,
      Ne.symm h12, Ne.symm h13, Ne.symm h14, Ne.symm h23, Ne.symm h24, Ne.symm h34]

/-! ## Claim C1 -/

set_option maxHeartbeats 1000000 in
/-- C1 is false as stated: `process_matches` folds over the games in input
order and performs no sort, so on an input list given in reverse
chronological order the final rating mapping differs from the fold over the
`(match_date, game_id)`-sorted sequence.  Concretely, for the two games
`c1_g2, c1_g1` (in that order) starting from `c1_ratings0`, player A's
final rating differs between the engine's run and the sorted-order run. -/
theorem c1_counterexample :
    finalRatingOf c1_ratings0 [c1_g2, c1_g1] "A" ≠
      finalRatingOf c1_ratings0 (sortGames [c1_g2, c1_g1]) "A" := by
  have hsort : sortGames [c1_g2, c1_g1] = [c1_g1, c1_g2] := by decide
  have e1 : ∀ ratings : RatingMap, update_ratings WINNING_BONUS ratings c1_g1 =
      Except.ok (applyGame WINNING_BONUS ratings "A" "B" "C" "D" 11 9) := by
    intro ratings
    have h := update_ratings_ok WINNING_BONUS ratings c1_g1 11 9 (by decide) (by decide) (by decide)
    simpa [(by decide : pyStrip c1_g1.partner1 = "A"), (by decide : pyStrip c1_g1.partner2 = "B"),
      (by decide : pyStrip c1_g1.opponent1 = "C"), (by decide : pyStrip c1_g1.opponent2 = "D")] using h
  have e2 : ∀ ratings : RatingMap, update_ratings WINNING_BONUS ratings c1_g2 =
      Except.ok (applyGame WINNING_BONUS ratings "A" "B" "C" "D" 11 3) := by
    intro ratings
    have h := update_ratings_ok WINNING_BONUS ratings c1_g2 11 3 (by decide) (by decide) (by decide)
    simpa [(by decide : pyStrip c1_g2.partner1 = "A"), (by decide : pyStrip c1_g2.partner2 = "B"),
      (by decide : pyStrip c1_g2.opponent1 = "C"), (by decide : pyStrip c1_g2.opponent2 = "D")] using h
  rw [hsort]
  simp only [finalRatingOf]
  rw [process_matches_cons_ok _ _ _ _ (e2 c1_ratings0),
      process_matches_cons_ok _ _ _ _ (e1 _),
      process_matches_cons_ok _ _ _ _ (e1 c1_ratings0),
      process_matches_cons_ok _ _ _ _ (e2 _)]
  simp only [process_matches]
  simp +decide [applyGame, setR, c1_ratings0, default_rating]
  norm_num [abs_of_nonneg, classifyContext, classifyMargin, ratingChangeMultiplier, RATING_CHANGE,
    BASE_RATING_DELTA, WINNING_BONUS, TOSSUP_THRESHOLD, SLIGHT_THRESHOLD,
    BLOWOUT_MARGIN, NARROW_MARGIN]

/-- C1 (amended): the Contextual Rating Engine (`process_matches` of
`rank_ptp.py`) folds the rating updates over the games in the order the
input provides them and performs no sorting, so the final rating mapping
equals the fold over the `(match_date, game_id)`-sorted sequence exactly
when the input is already so sorted; separately, the probabilistic front
end (`parse_csv_for_ttt` of `rank_ttt.py`) does sort the games it keeps,
by match date alone (non-decreasing, stable), with no game-id tiebreak. -/
theorem c1_amended (r0 : RatingMap) (rows : List Row) (games : List Row)
    (hsorted : rows.Pairwise (fun a b => gameKeyLe a b = true)) :
    process_matches r0 rows = process_matches r0 (sortGames rows) ∧
    (parse_csv_for_ttt games).Pairwise (fun a b => dateLe a b = true) := by
  constructor
  · rw [sortGames, stableSort_of_sorted _ _ hsorted]
  · refine pairwise_stableSort dateLe ?_ ?_ _
    · intro a b c hab hbc
      simp only [dateLe, decide_eq_true_eq] at *
      omega
    · intro a b
      simp only [dateLe, decide_eq_true_eq]
      omega

/-- Witness for `c1_amended` at a concrete sorted input and a concrete
unsorted parse input. -/
theorem c1_amended_witness :
    process_matches c1_ratings0 [c1_g1, c1_g2] =
      process_matches c1_ratings0 (sortGames [c1_g1, c1_g2]) ∧
    (parse_csv_for_ttt [c1_g2, c1_g1]).Pairwise (fun a b => dateLe a b = true) :=
  c1_amended c1_ratings0 [c1_g1, c1_g2] [c1_g2, c1_g1] (by decide)

/-! ## Claim C3 -/

/-- C3 is false as stated: in the 11–2 game `c3_row` the score margin is 9,
which is `solid` (it is at least `NARROW_MARGIN = 3` and below
`BLOWOUT_MARGIN = 12`), not `narrow`, and each winner's rating rises by
`BASE_RATING_DELTA * 15 / 2 + WINNING_BONUS`, not by
`BASE_RATING_DELTA * 12 / 2`. -/
theorem c3_counterexample :
    classifyMargin 11 2 ≠ RMargin.narrow ∧
    finalRatingOf emptyRatings [c3_row] "A" ≠
      some (default_rating + BASE_RATING_DELTA * 12 / 2) ∧
    finalRatingOf emptyRatings [c3_row] "C" ≠
      some (default_rating - BASE_RATING_DELTA * 12 / 2) := by
  refine ⟨by decide, ?_, ?_⟩ <;>
  · have h := update_ratings_ok WINNING_BONUS emptyRatings c3_row 11 2
      (by decide) (by decide) (by decide)
    simp only [(by decide : pyStrip c3_row.partner1 = "A"),
      (by decide : pyStrip c3_row.partner2 = "B"),
      (by decide : pyStrip c3_row.opponent1 = "C"),
      (by decide : pyStrip c3_row.opponent2 = "D")] at h
    simp only [finalRatingOf]
    rw [process_matches_cons_ok _ _ _ _ h]
    simp only [process_matches]
    simp +decide [applyGame, setR, emptyRatings, default_rating]
    norm_num [abs_of_nonneg, classifyContext, classifyMargin, ratingChangeMultiplier,
      RATING_CHANGE, BASE_RATING_DELTA, WINNING_BONUS, TOSSUP_THRESHOLD,
      SLIGHT_THRESHOLD, BLOWOUT_MARGIN, NARROW_MARGIN]

/-- C3 (amended): for the single game in which A,B (both at the default
rating 3.5) beat C,D (both at 3.5) by 11 to 2, the engine classifies the
game as a tossup (rating difference 0 is below `TOSSUP_THRESHOLD`, no
favoredness level) with margin class `solid` (margin 9 is at least
`NARROW_MARGIN` and below `BLOWOUT_MARGIN`), so the multiplier is 15 and
each winner's rating increases by exactly
`BASE_RATING_DELTA * 15 / 2 + WINNING_BONUS` while each loser's rating
decreases by exactly `BASE_RATING_DELTA * 15 / 2`. -/
theorem c3_amended :
    classifyContext ((default_rating + default_rating) / 2)
      ((default_rating + default_rating) / 2) true = (WContext.tossup, none) ∧
    classifyMargin 11 2 = RMargin.solid ∧
    ratingChangeMultiplier WContext.tossup none RMargin.solid = 15 ∧
    finalRatingOf emptyRatings [c3_row] "A" =
      some (default_rating + BASE_RATING_DELTA * 15 / 2 + WINNING_BONUS) ∧
    finalRatingOf emptyRatings [c3_row] "B" =
      some (default_rating + BASE_RATING_DELTA * 15 / 2 + WINNING_BONUS) ∧
    finalRatingOf emptyRatings [c3_row] "C" =
      some (default_rating - BASE_RATING_DELTA * 15 / 2) ∧
    finalRatingOf emptyRatings [c3_row] "D" =
      some (default_rating - BASE_RATING_DELTA * 15 / 2) := by
  refine ⟨by norm_num [classifyContext, TOSSUP_THRESHOLD], by decide, by decide, ?_, ?_, ?_, ?_⟩ <;>
  · have h := update_ratings_ok WINNING_BONUS emptyRatings c3_row 11 2
      (by decide) (by decide) (by decide)
    simp only [(by decide : pyStrip c3_row.partner1 = "A"),
      (by decide : pyStrip c3_row.partner2 = "B"),
      (by decide : pyStrip c3_row.opponent1 = "C"),
      (by decide : pyStrip c3_row.opponent2 = "D")] at h
    simp only [finalRatingOf]
    rw [process_matches_cons_ok _ _ _ _ h]
    simp only [process_matches]
    simp +decide [applyGame, setR, emptyRatings, default_rating]
    norm_num [abs_of_nonneg, classifyContext, classifyMargin, ratingChangeMultiplier,
      RATING_CHANGE, BASE_RATING_DELTA, WINNING_BONUS, TOSSUP_THRESHOLD,
      SLIGHT_THRESHOLD, BLOWOUT_MARGIN, NARROW_MARGIN]

/-! ## Claim C4 -/

/-- C4 is false as stated for the Contextual Rating Engine: a game whose
score field is not a parseable integer does not merely get skipped — the
uncaught `ValueError` aborts the whole run, and the later well-formed game
is never processed (alone, the same well-formed game processes fine). -/
theorem c4_counterexample :
    runAborts emptyRatings [c4_bad, c4_good] = true ∧
    runAborts emptyRatings [c4_good] = false := by
  constructor
  · have e := update_ratings_badScore WINNING_BONUS emptyRatings c4_bad
      (by decide) (Or.inl (by decide))
    simp only [runAborts]
    rw [process_matches_cons_err _ _ _ e]
  · have e := update_ratings_ok WINNING_BONUS emptyRatings c4_good 11 2
      (by decide) (by decide) (by decide)
    simp only [runAborts]
    rw [process_matches_cons_ok _ _ _ _ e]
    rfl

/-- C4 (amended): in `rank_ttt.py`'s parser a non-forfeit game whose score
does not parse is skipped — it contributes nothing to the parsed game list
and the remaining games are processed; but in `rank_ptp.py`'s engine the
same game raises an uncaught `ValueError`, aborting the run. -/
theorem c4_amended (ratings : RatingMap) (row : Row) (rest : List Row)
    (hf : "DEFAULT" ∉ [pyStrip row.partner1, pyStrip row.partner2,
      pyStrip row.opponent1, pyStrip row.opponent2])
    (hp : parseInt row.team1_points = none ∨ parseInt row.team2_points = none) :
    parse_csv_for_ttt (row :: rest) = parse_csv_for_ttt rest ∧
    process_matches ratings (row :: rest) = Except.error () := by
  constructor
  · have hnone : parseRowTtt row = none := by
      simp only [parseRowTtt]
      rw [if_neg hf]
      rcases hp with h | h
      · rw [h]
      · rw [h]
        rcases parseInt row.team1_points with _ | s <;> rfl
    simp [parse_csv_for_ttt, hnone]
  · exact process_matches_cons_err _ _ _
      (update_ratings_badScore WINNING_BONUS ratings row hf hp)

/-- Witness for `c4_amended` at the concrete malformed game `c4_bad`. -/
theorem c4_amended_witness :
    parse_csv_for_ttt [c4_bad, c4_good] = parse_csv_for_ttt [c4_good] ∧
    process_matches emptyRatings [c4_bad, c4_good] = Except.error () :=
  c4_amended emptyRatings c4_bad [c4_good] (by decide) (Or.inl (by decide))

/-! ## Claim C2 -/

/-- C2: for every single non-forfeit, non-tie game processed by
`update_ratings` with four distinct players, the net change in the sum of
the four participants' ratings (counting an absent player at the default)
is exactly `2 * bonus`; in particular the update is zero-sum when the
winning bonus is zero. -/
theorem c2_zero_sum (bonus : ℚ) (ratings : RatingMap) (row : Row) (s1 s2 : ℤ) (r' : RatingMap)
    (hf : "DEFAULT" ∉ [pyStrip row.partner1, pyStrip row.partner2,
      pyStrip row.opponent1, pyStrip row.opponent2])
    (h1 : parseInt row.team1_points = some s1)
    (h2 : parseInt row.team2_points = some s2)
    (_hnt : s1 ≠ s2)
    (h12 : pyStrip row.partner1 ≠ pyStrip row.partner2)
    (h13 : pyStrip row.partner1 ≠ pyStrip row.opponent1)
    (h14 : pyStrip row.partner1 ≠ pyStrip row.opponent2)
    (h23 : pyStrip row.partner2 ≠ pyStrip row.opponent1)
    (h24 : pyStrip row.partner2 ≠ pyStrip row.opponent2)
    (h34 : pyStrip row.opponent1 ≠ pyStrip row.opponent2)
    (hok : update_ratings bonus ratings row = Except.ok r') :
    ((r' (pyStrip row.partner1)).getD default_rating +
     (r' (pyStrip row.partner2)).getD default_rating +
     (r' (pyStrip row.opponent1)).getD default_rating +
     (r' (pyStrip row.opponent2)).getD default_rating) -
    ((ratings (pyStrip row.partner1)).getD default_rating +
     (ratings (pyStrip row.partner2)).getD default_rating +
     (ratings (pyStrip row.opponent1)).getD default_rating +
     (ratings (pyStrip row.opponent2)).getD default_rating) = 2 * bonus := by
  have hspec := update_ratings_ok bonus ratings row s1 s2 hf h1 h2
  rw [hok] at hspec
  have hr : r' = applyGame bonus ratings (pyStrip row.partner1) (pyStrip row.partner2)
      (pyStrip row.opponent1) (pyStrip row.opponent2) s1 s2 := by
    injection hspec
  subst hr
  obtain ⟨e1, e2, e3, e4⟩ := applyGame_eval bonus ratings _ _ _ _ s1 s2 h12 h13 h14 h23 h24 h34
  rw [e1, e2, e3, e4]
  by_cases hw : s2 < s1 <;> simp [hw, getR] <;> ring

/-- Witness for `c2_zero_sum` on the game `c2_row` from empty ratings. -/
theorem c2_witness :
    ((applyGame WINNING_BONUS emptyRatings (pyStrip c2_row.partner1) (pyStrip c2_row.partner2)
        (pyStrip c2_row.opponent1) (pyStrip c2_row.opponent2) 11 2
        (pyStrip c2_row.partner1)).getD default_rating +
     (applyGame WINNING_BONUS emptyRatings (pyStrip c2_row.partner1) (pyStrip c2_row.partner2)
        (pyStrip c2_row.opponent1) (pyStrip c2_row.opponent2) 11 2
        (pyStrip c2_row.partner2)).getD default_rating +
     (applyGame WINNING_BONUS emptyRatings (pyStrip c2_row.partner1) (pyStrip c2_row.partner2)
        (pyStrip c2_row.opponent1) (pyStrip c2_row.opponent2) 11 2
        (pyStrip c2_row.opponent1)).getD default_rating +
     (applyGame WINNING_BONUS emptyRatings (pyStrip c2_row.partner1) (pyStrip c2_row.partner2)
        (pyStrip c2_row.opponent1) (pyStrip c2_row.opponent2) 11 2
        (pyStrip c2_row.opponent2)).getD default_rating) -
    ((emptyRatings (pyStrip c2_row.partner1)).getD default_rating +
     (emptyRatings (pyStrip c2_row.partner2)).getD default_rating +
     (emptyRatings (pyStrip c2_row.opponent1)).getD default_rating +
     (emptyRatings (pyStrip c2_row.opponent2)).getD default_rating) = 2 * WINNING_BONUS :=
  c2_zero_sum WINNING_BONUS emptyRatings c2_row 11 2 _ (by decide) (by decide) (by decide)
    (by decide) (by decide) (by decide) (by decide) (by decide) (by decide) (by decide)
    (update_ratings_ok WINNING_BONUS emptyRatings c2_row 11 2 (by decide) (by decide) (by decide))

/-! ## Claim C6 -/

/-- C6: a game with the forfeit sentinel `DEFAULT` in any of the four
player slots performs zero rating mutation (the mapping returned is the
input mapping itself) and contributes zero edges to the pool graph. -/
theorem c6_forfeit_noop (bonus : ℚ) (ratings : RatingMap) (row : Row)
    (h : "DEFAULT" ∈ [pyStrip row.partner1, pyStrip row.partner2,
      pyStrip row.opponent1, pyStrip row.opponent2]) :
    update_ratings bonus ratings row = Except.ok ratings ∧ rowEdges row = [] := by
  refine ⟨update_ratings_forfeit bonus ratings row h, ?_⟩
  simp only [rowEdges]
  rw [if_pos h]

/-- Witness for `c6_forfeit_noop` on the forfeited game `c6_row`. -/
theorem c6_witness :
    update_ratings WINNING_BONUS emptyRatings c6_row = Except.ok emptyRatings ∧
    rowEdges c6_row = [] :=
  c6_forfeit_noop WINNING_BONUS emptyRatings c6_row (by decide)

/-! ## Claim C7 -/

/-- C7: for every non-forfeit, non-tie game the engine's classification
satisfies: the context is `tossup` iff the rating difference is below
`TOSSUP_THRESHOLD`, and tossups carry no favoredness level; otherwise the
level is `slight` iff the difference is below `SLIGHT_THRESHOLD` and
`heavy` otherwise, and the winner is tagged `favored` iff the winning team
had the higher team rating and `underdog` otherwise; the margin class is
`blowout` iff the score margin is at least `BLOWOUT_MARGIN`, `solid` iff it
is at least `NARROW_MARGIN` but below `BLOWOUT_MARGIN`, and `narrow`
otherwise. -/
theorem c7_classification (t1 t2 : ℚ) (s1 s2 : ℤ) (_hne : s1 ≠ s2) :
    ((classifyContext t1 t2 (decide (s2 < s1))).1 = WContext.tossup ↔
      |t1 - t2| < TOSSUP_THRESHOLD) ∧
    ((classifyContext t1 t2 (decide (s2 < s1))).1 = WContext.tossup →
      (classifyContext t1 t2 (decide (s2 < s1))).2 = none) ∧
    (TOSSUP_THRESHOLD ≤ |t1 - t2| →
      (((classifyContext t1 t2 (decide (s2 < s1))).2 = some FLevel.slight ↔
          |t1 - t2| < SLIGHT_THRESHOLD) ∧
       ((classifyContext t1 t2 (decide (s2 < s1))).2 = some FLevel.heavy ↔
          SLIGHT_THRESHOLD ≤ |t1 - t2|) ∧
       ((classifyContext t1 t2 (decide (s2 < s1))).1 = WContext.favored ↔
          (if s2 < s1 then t2 else t1) < (if s2 < s1 then t1 else t2)) ∧
       ((classifyContext t1 t2 (decide (s2 < s1))).1 = WContext.underdog ↔
          (if s2 < s1 then t1 else t2) < (if s2 < s1 then t2 else t1)))) ∧
    (classifyMargin s1 s2 = RMargin.blowout ↔ BLOWOUT_MARGIN ≤ |s1 - s2|) ∧
    (classifyMargin s1 s2 = RMargin.solid ↔
      NARROW_MARGIN ≤ |s1 - s2| ∧ |s1 - s2| < BLOWOUT_MARGIN) ∧
    (classifyMargin s1 s2 = RMargin.narrow ↔ |s1 - s2| < NARROW_MARGIN) := by
  have h0 : (0 : ℚ) < TOSSUP_THRESHOLD := by norm_num [TOSSUP_THRESHOLD]
  have hnm : (NARROW_MARGIN : ℤ) ≤ BLOWOUT_MARGIN := by norm_num [NARROW_MARGIN, BLOWOUT_MARGIN]
  have hmb : classifyMargin s1 s2 = RMargin.blowout ↔ BLOWOUT_MARGIN ≤ |s1 - s2| := by
    unfold classifyMargin
    dsimp only
    split_ifs with hb hn <;> simp [hb]
  have hms : classifyMargin s1 s2 = RMargin.solid ↔
      NARROW_MARGIN ≤ |s1 - s2| ∧ |s1 - s2| < BLOWOUT_MARGIN := by
    unfold classifyMargin
    dsimp only
    split_ifs with hb hn
    · simp [not_lt.mpr hb]
    · simp [hn, not_le.mp hb]
    · simp [hn]
  have hmn : classifyMargin s1 s2 = RMargin.narrow ↔ |s1 - s2| < NARROW_MARGIN := by
    unfold classifyMargin
    dsimp only
    split_ifs with hb hn
    · have := le_trans hnm hb
      simp [not_lt.mpr this]
    · simp [not_lt.mpr hn]
    · simp [not_le.mp hn]
  by_cases ht : |t1 - t2| < TOSSUP_THRESHOLD
  · have hc : classifyContext t1 t2 (decide (s2 < s1)) = (WContext.tossup, none) := by
      simp only [classifyContext]
      rw [if_pos ht]
    refine ⟨?_, ?_, ?_, hmb, hms, hmn⟩
    · simp [hc, ht]
    · simp [hc]
    · intro hge
      exact absurd hge (not_le.mpr ht)
  · have hne12 : t1 ≠ t2 := by
      intro e
      apply ht
      rw [e, sub_self, abs_zero]
      exact h0
    have hc : classifyContext t1 t2 (decide (s2 < s1)) =
        (if (decide (s2 < s1) && decide (t2 < t1)) ||
            (!(decide (s2 < s1)) && !(decide (t2 < t1)))
          then WContext.favored else WContext.underdog,
         some (if |t1 - t2| < SLIGHT_THRESHOLD then FLevel.slight else FLevel.heavy)) := by
      simp only [classifyContext]
      rw [if_neg ht]
    refine ⟨?_, ?_, ?_, hmb, hms, hmn⟩
    · rw [hc]
      constructor
      · intro h
        exfalso
        revert h
        dsimp only
        split_ifs <;> simp
      · intro h
        exact absurd h ht
    · rw [hc]
      intro h
      exfalso
      revert h
      dsimp only
      split_ifs <;> simp
    · intro _hge
      refine ⟨?_, ?_, ?_, ?_⟩
      · rw [hc]
        by_cases hs : |t1 - t2| < SLIGHT_THRESHOLD <;> simp [hs]
      · rw [hc]
        by_cases hs : |t1 - t2| < SLIGHT_THRESHOLD
        · simp [hs, not_le.mpr hs]
        · simp [hs, not_lt.mp hs]
      · rw [hc]
        by_cases hw : s2 < s1 <;> by_cases hfav : t2 < t1
        · simp [hw, hfav]
        · simp [hw, hfav]
        · simp [hw, hfav, lt_asymm hfav]
        · simp [hw, hfav, lt_of_le_of_ne (not_lt.mp hfav) hne12]
      · rw [hc]
        by_cases hw : s2 < s1 <;> by_cases hfav : t2 < t1
        · simp [hw, hfav, lt_asymm hfav]
        · simp [hw, hfav, lt_of_le_of_ne (not_lt.mp hfav) hne12]
        · simp [hw, hfav]
        · simp [hw, hfav]

/-- Witness for `c7_classification` at team ratings 4 and 3.7 with an 11–7
score. -/
theorem c7_classification_witness :
    ((classifyContext 4 (37/10) (decide ((7:ℤ) < 11))).1 = WContext.tossup ↔
      |(4:ℚ) - 37/10| < TOSSUP_THRESHOLD) ∧
    ((classifyContext 4 (37/10) (decide ((7:ℤ) < 11))).1 = WContext.tossup →
      (classifyContext 4 (37/10) (decide ((7:ℤ) < 11))).2 = none) ∧
    (TOSSUP_THRESHOLD ≤ |(4:ℚ) - 37/10| →
      (((classifyContext 4 (37/10) (decide ((7:ℤ) < 11))).2 = some FLevel.slight ↔
          |(4:ℚ) - 37/10| < SLIGHT_THRESHOLD) ∧
       ((classifyContext 4 (37/10) (decide ((7:ℤ) < 11))).2 = some FLevel.heavy ↔
          SLIGHT_THRESHOLD ≤ |(4:ℚ) - 37/10|) ∧
       ((classifyContext 4 (37/10) (decide ((7:ℤ) < 11))).1 = WContext.favored ↔
          (if (7:ℤ) < 11 then (37/10 : ℚ) else 4) < (if (7:ℤ) < 11 then (4:ℚ) else 37/10)) ∧
       ((classifyContext 4 (37/10) (decide ((7:ℤ) < 11))).1 = WContext.underdog ↔
          (if (7:ℤ) < 11 then (4:ℚ) else 37/10) < (if (7:ℤ) < 11 then (37/10 : ℚ) else 4)))) ∧
    (classifyMargin 11 7 = RMargin.blowout ↔ BLOWOUT_MARGIN ≤ |(11:ℤ) - 7|) ∧
    (classifyMargin 11 7 = RMargin.solid ↔
      NARROW_MARGIN ≤ |(11:ℤ) - 7| ∧ |(11:ℤ) - 7| < BLOWOUT_MARGIN) ∧
    (classifyMargin 11 7 = RMargin.narrow ↔ |(11:ℤ) - 7| < NARROW_MARGIN) :=
  c7_classification 4 (37/10) 11 7 (by decide)

/-! ## Claim C10 -/

/-- C10: a successful `update_ratings` call on a non-forfeit game leaves
the rating of every player other than the four participants unchanged. -/
theorem c10_frame (bonus : ℚ) (ratings : RatingMap) (row : Row) (r' : RatingMap) (q : String)
    (hf : "DEFAULT" ∉ [pyStrip row.partner1, pyStrip row.partner2,
      pyStrip row.opponent1, pyStrip row.opponent2])
    (hok : update_ratings bonus ratings row = Except.ok r')
    (hq1 : q ≠ pyStrip row.partner1) (hq2 : q ≠ pyStrip row.partner2)
    (hq3 : q ≠ pyStrip row.opponent1) (hq4 : q ≠ pyStrip row.opponent2) :
    r' q = ratings q := by
  simp only [update_ratings] at hok
  rw [if_neg hf] at hok
  cases h1 : parseInt row.team1_points with
  | none => rw [h1] at hok; cases hok
  | some s1 =>
    cases h2 : parseInt row.team2_points with
    | none => rw [h1, h2] at hok; cases hok
    | some s2 =>
      rw [h1, h2] at hok
      have hr : r' = applyGame bonus ratings (pyStrip row.partner1) (pyStrip row.partner2)
          (pyStrip row.opponent1) (pyStrip row.opponent2) s1 s2 := by
        injection hok with h
        exact h.symm
      subst hr
      exact applyGame_frame bonus ratings _ _ _ _ s1 s2 q hq1 hq2 hq3 hq4

/-- Witness for `c10_frame`: bystander E is untouched by the game
`c2_row`. -/
theorem c10_witness :
    (applyGame WINNING_BONUS emptyRatings (pyStrip c2_row.partner1) (pyStrip c2_row.partner2)
      (pyStrip c2_row.opponent1) (pyStrip c2_row.opponent2) 11 2) "E" = emptyRatings "E" :=
  c10_frame WINNING_BONUS emptyRatings c2_row _ "E" (by decide)
    (update_ratings_ok WINNING_BONUS emptyRatings c2_row 11 2 (by decide) (by decide) (by decide))
    (by decide) (by decide) (by decide) (by decide)

/-! ## Claim C5 -/

/-- C5 is false as stated: the strengths the Synergy Analyzer feeds the
expected-win formula are not a single finalized per-player value.  Under
the concrete collaborator `toyEnv`, after partnership (A,B) plays two
games, the two recorded `team_strength` values are 2 and 4 — they differ
from one another (and only the second matches the finalized sum 4), so the
record list is not the finalized value replicated. -/
theorem c5_counterexample :
    (c5_final.stats ("A", "B")).matchList.map MatchRec.team_strength = [2, 4] ∧
    toyEnv.expose (c5_final.ratings "A") + toyEnv.expose (c5_final.ratings "B") = 4 ∧
    (c5_final.stats ("A", "B")).matchList.map MatchRec.team_strength ≠
      List.replicate (c5_final.stats ("A", "B")).matchList.length
        (toyEnv.expose (c5_final.ratings "A") + toyEnv.expose (c5_final.ratings "B")) := by
  have h1 : (c5_final.stats ("A", "B")).matchList.map MatchRec.team_strength = [2, 4] := by
    simp +decide [c5_final, processGamesSyn, update_ratings_syn, addRec, sort2, strLtb,
      initSynState, toyEnv, emptyStats]
    norm_num
  have h2 : toyEnv.expose (c5_final.ratings "A") + toyEnv.expose (c5_final.ratings "B") = 4 := by
    simp +decide [c5_final, processGamesSyn, update_ratings_syn, addRec, sort2, strLtb,
      initSynState, toyEnv, emptyStats]
    norm_num
  have h3 : (c5_final.stats ("A", "B")).matchList.length = 2 := by
    simp +decide [c5_final, processGamesSyn, update_ratings_syn, addRec, sort2, strLtb,
      initSynState, toyEnv, emptyStats]
  refine ⟨h1, h2, ?_⟩
  rw [h1, h2, h3]
  intro h
  have := List.head_eq_of_cons_eq h
  norm_num at this

/-- C5 (amended): the analyzer computes
`expected = 1 / (1 + 10 ^ ((opponent_strength − team_strength) / 10))`
where the strengths recorded for a game are the sums of the two players'
exposed ratings in the rating state immediately after that game's update —
intermediate per-game values that can differ across a partnership's games —
not finalized end-of-run estimates. -/
theorem c5_amended (Rating : Type) (env : TSEnv Rating) (st : SynState Rating)
    (p1 p2 o1 o2 : String) (s1 s2 : ℤ)
    (hne : sort2 p1 p2 ≠ sort2 o1 o2) :
    ∃ rec : MatchRec,
      ((update_ratings_syn env st p1 p2 o1 o2 s1 s2).stats (sort2 p1 p2)).matchList =
        (st.stats (sort2 p1 p2)).matchList ++ [rec] ∧
      rec.team_strength =
        env.expose ((update_ratings_syn env st p1 p2 o1 o2 s1 s2).ratings (sort2 p1 p2).1) +
        env.expose ((update_ratings_syn env st p1 p2 o1 o2 s1 s2).ratings (sort2 p1 p2).2) ∧
      rec.opponent_strength =
        env.expose ((update_ratings_syn env st p1 p2 o1 o2 s1 s2).ratings (sort2 o1 o2).1) +
        env.expose ((update_ratings_syn env st p1 p2 o1 o2 s1 s2).ratings (sort2 o1 o2).2) ∧
      (∀ t o : ℚ, expectedWin t o = 1 / (1 + (10 : ℝ) ^ (((o - t) / 10 : ℚ) : ℝ))) := by
  refine ⟨{ won := decide (s2 < s1),
            team_strength :=
              env.expose ((update_ratings_syn env st p1 p2 o1 o2 s1 s2).ratings (sort2 p1 p2).1) +
              env.expose ((update_ratings_syn env st p1 p2 o1 o2 s1 s2).ratings (sort2 p1 p2).2),
            opponent_strength :=
              env.expose ((update_ratings_syn env st p1 p2 o1 o2 s1 s2).ratings (sort2 o1 o2).1) +
              env.expose ((update_ratings_syn env st p1 p2 o1 o2 s1 s2).ratings (sort2 o1 o2).2),
            score_diff := s1 - s2,
            opponents := sort2 o1 o2 }, ?_, rfl, rfl, fun t o => rfl⟩
  simp [update_ratings_syn, addRec, hne]

/-- Witness for `c5_amended`: under `toyEnv` one update appends exactly one
record for the partnership. -/
theorem c5_amended_witness :
    ((update_ratings_syn toyEnv (initSynState toyEnv) "A" "B" "C" "D" 11 5).stats
      ("A", "B")).matchList.length =
      ((initSynState toyEnv).stats ("A", "B")).matchList.length + 1 := by
  obtain ⟨rec, hm, -, -, -⟩ :=
    c5_amended ℚ toyEnv (initSynState toyEnv) "A" "B" "C" "D" 11 5 (by decide)
  rw [(by decide : sort2 "A" "B" = ("A", "B"))] at hm
  rw [hm, List.length_append]
  rfl

/-! ## Claim C8 -/

/-- C8: a partnership with exactly 1 recorded joint game is silently
excluded from the synergy output (`calculate_synergy` returns `None`, not
an error and not a zero score), and a partnership with exactly 2 recorded
joint games always produces a result, which also passes the `>= 2` print
gate of `main`. -/
theorem c8_min_games :
    (∀ (Rating : Type) (env : TSEnv Rating) (ratings : String → Rating)
        (pr : String × String) (stats : PStats),
      stats.matchList.length = 1 → calculate_synergy env ratings pr stats = none) ∧
    (∀ (Rating : Type) (env : TSEnv Rating) (ratings : String → Rating)
        (pr : String × String) (stats : PStats),
      stats.matchList.length = 2 →
        ∃ out, calculate_synergy env ratings pr stats = some out ∧
          out.matches_played = 2 ∧ 2 ≤ out.matches_played) := by
  constructor
  · intro R env ratings pr stats h
    simp [calculate_synergy, h]
  · intro R env ratings pr stats h
    have hlt : ¬ stats.matchList.length < 2 := by
      rw [h]
      exact lt_irrefl 2
    simp only [calculate_synergy]
    rw [if_neg hlt]
    exact ⟨_, rfl, h, le_of_eq h.symm⟩

/-- Witness for `c8_min_games` on concrete one- and two-game stats. -/
theorem c8_min_games_witness :
    calculate_synergy toyEnv (fun _ => (0 : ℚ)) ("A", "B") oneStats = none ∧
    (calculate_synergy toyEnv (fun _ => (0 : ℚ)) ("A", "B") twoStats).isSome = true := by
  refine ⟨c8_min_games.1 ℚ toyEnv _ _ _ rfl, ?_⟩
  obtain ⟨out, hout, -⟩ := c8_min_games.2 ℚ toyEnv (fun _ => (0 : ℚ)) ("A", "B") twoStats rfl
  rw [hout]
  rfl

/-! ## Claim C9 -/

/-! ### Correctness of the connected-component computation -/

theorem adjb_symm (edges : List (String × String)) (u v : String) :
    adjb edges u v = true ↔ adjb edges v u = true := by
  simp only [adjb, List.any_eq_true, Bool.or_eq_true, Bool.and_eq_true, decide_eq_true_eq]
  constructor <;> rintro ⟨e, he, h⟩ <;> exact ⟨e, he, Or.symm h⟩

theorem adjb_mem_right (edges : List (String × String)) (u v : String)
    (h : adjb edges u v = true) : v ∈ nodesOf edges := by
  simp only [adjb, List.any_eq_true, Bool.or_eq_true, Bool.and_eq_true, decide_eq_true_eq] at h
  obtain ⟨e, he, h⟩ := h
  simp only [nodesOf, List.mem_dedup, List.mem_flatMap]
  rcases h with ⟨h1, h2⟩ | ⟨h1, h2⟩
  · exact ⟨e, he, by simp [h2]⟩
  · exact ⟨e, he, by simp [h1]⟩

theorem reach_symm (edges : List (String × String)) {u v : String}
    (h : Reach edges u v) : Reach edges v u := by
  induction h with
  | refl => exact Relation.ReflTransGen.refl
  | tail hab hbc ih => exact Relation.ReflTransGen.head ((adjb_symm edges _ _).mp hbc) ih

theorem subset_growOnce (edges : List (String × String)) (s : List String) :
    s ⊆ growOnce edges s :=
  fun _ hx => List.mem_append_left _ hx

theorem growOnce_subset (edges : List (String × String)) (s U : List String)
    (hs : s ⊆ U) (hn : nodesOf edges ⊆ U) : growOnce edges s ⊆ U := by
  intro x hx
  rcases List.mem_append.mp hx with h | h
  · exact hs h
  · exact hn (List.mem_of_mem_filter h)

theorem growOnce_nodup (edges : List (String × String)) (s : List String)
    (h : s.Nodup) : (growOnce edges s).Nodup := by
  refine List.Nodup.append h ((List.nodup_dedup _).filter _) ?_
  intro x hxs hxf
  have hc := List.of_mem_filter hxf
  rw [decide_eq_true_eq] at hc
  exact hc.1 hxs

theorem growOnce_sound (edges : List (String × String)) (root : String) (s : List String)
    (hs : ∀ y ∈ s, Reach edges root y) :
    ∀ x ∈ growOnce edges s, Reach edges root x := by
  intro x hx
  rcases List.mem_append.mp hx with h | h
  · exact hs x h
  · have hc := List.of_mem_filter h
    rw [decide_eq_true_eq] at hc
    obtain ⟨-, u, hu, hadj⟩ := hc
    exact Relation.ReflTransGen.tail (hs u hu) hadj

theorem growOnce_eq_or_lt (edges : List (String × String)) (s : List String) :
    growOnce edges s = s ∨ s.length < (growOnce edges s).length := by
  by_cases h : (nodesOf edges).filter
      (fun v => decide (v ∉ s ∧ ∃ u ∈ s, adjb edges u v = true)) = []
  · left
    unfold growOnce
    rw [h, List.append_nil]
  · right
    have hpos : 0 < ((nodesOf edges).filter
        (fun v => decide (v ∉ s ∧ ∃ u ∈ s, adjb edges u v = true))).length :=
      List.length_pos.mpr h
    simp only [growOnce, List.length_append]
    omega

theorem growOnce_fix_closed (edges : List (String × String)) (s : List String)
    (hfix : growOnce edges s = s) :
    ∀ u ∈ s, ∀ v, adjb edges u v = true → v ∈ s := by
  intro u hu v hadj
  by_contra hv
  have hvf : v ∈ (nodesOf edges).filter
      (fun v => decide (v ∉ s ∧ ∃ u ∈ s, adjb edges u v = true)) :=
    List.mem_filter.mpr ⟨adjb_mem_right edges u v hadj,
      by rw [decide_eq_true_eq]; exact ⟨hv, u, hu, hadj⟩⟩
  have hlen : (growOnce edges s).length = s.length := by rw [hfix]
  simp only [growOnce, List.length_append] at hlen
  have hnil : (nodesOf edges).filter
      (fun v => decide (v ∉ s ∧ ∃ u ∈ s, adjb edges u v = true)) = [] :=
    List.length_eq_zero.mp (by omega)
  rw [hnil] at hvf
  cases hvf

theorem subset_growN (edges : List (String × String)) :
    ∀ (n : Nat) (s : List String), s ⊆ growN edges n s := by
  intro n
  induction n with
  | zero => intro s; exact fun _ h => h
  | succ n ih =>
    intro s
    exact fun x hx => ih (growOnce edges s) (subset_growOnce edges s hx)

theorem growN_sound (edges : List (String × String)) (root : String) :
    ∀ (n : Nat) (s : List String), (∀ y ∈ s, Reach edges root y) →
      ∀ x ∈ growN edges n s, Reach edges root x := by
  intro n
  induction n with
  | zero => intro s hs; exact hs
  | succ n ih =>
    intro s hs
    exact ih (growOnce edges s) (growOnce_sound edges root s hs)

theorem growN_fix (edges : List (String × String)) :
    ∀ (n : Nat) (s : List String), growOnce edges s = s → growN edges n s = s := by
  intro n
  induction n with
  | zero => intro s _; rfl
  | succ n ih =>
    intro s h
    show growN edges n (growOnce edges s) = s
    rw [h]
    exact ih s h

theorem growN_fixpoint (edges : List (String × String)) (U : List String) :
    ∀ (n : Nat) (s : List String), s.Nodup → s ⊆ U → nodesOf edges ⊆ U →
      U.length ≤ s.length + n →
      growOnce edges (growN edges n s) = growN edges n s := by
  intro n
  induction n with
  | zero =>
    intro s hnd hsU hnU hlen
    show growOnce edges s = s
    have hUs : ∀ x ∈ U, x ∈ s := by
      have h1 : s.toFinset.card = s.length := List.toFinset_card_of_nodup hnd
      have h2 : s.toFinset ⊆ U.toFinset := fun x hx =>
        List.mem_toFinset.mpr (hsU (List.mem_toFinset.mp hx))
      have h3 : U.toFinset.card ≤ s.toFinset.card := by
        have := List.toFinset_card_le U
        omega
      have h4 : s.toFinset = U.toFinset := Finset.eq_of_subset_of_card_le h2 h3
      intro x hx
      exact List.mem_toFinset.mp (h4 ▸ List.mem_toFinset.mpr hx)
    have hnil : (nodesOf edges).filter
        (fun v => decide (v ∉ s ∧ ∃ u ∈ s, adjb edges u v = true)) = [] := by
      rw [List.filter_eq_nil_iff]
      intro a ha
      rw [decide_eq_true_eq]
      rintro ⟨hns, -⟩
      exact hns (hUs a (hnU ha))
    unfold growOnce
    rw [hnil, List.append_nil]
  | succ n ih =>
    intro s hnd hsU hnU hlen
    rcases growOnce_eq_or_lt edges s with hfix | hlt
    · have hstay : growN edges (n + 1) s = s := by
        show growN edges n (growOnce edges s) = s
        rw [hfix]
        exact growN_fix edges n s hfix
      rw [hstay]
      exact hfix
    · have := ih (growOnce edges s) (growOnce_nodup edges s hnd)
        (growOnce_subset edges s U hsU hnU) hnU (by omega)
      exact this

theorem componentOf_fix (edges : List (String × String)) (v : String) :
    growOnce edges (componentOf edges v) = componentOf edges v := by
  refine growN_fixpoint edges (v :: nodesOf edges) (nodesOf edges).length [v]
    (List.nodup_singleton v) ?_ ?_ ?_
  · intro x hx
    rcases List.mem_singleton.mp hx with rfl
    exact List.mem_cons_self _ _
  · exact fun x hx => List.mem_cons_of_mem _ hx
  · simp only [List.length_cons, List.length_singleton]
    omega

theorem componentOf_closed (edges : List (String × String)) (v : String) :
    ∀ u ∈ componentOf edges v, ∀ x, adjb edges u x = true → x ∈ componentOf edges v :=
  growOnce_fix_closed edges (componentOf edges v) (componentOf_fix edges v)

theorem mem_componentOf_self (edges : List (String × String)) (v : String) :
    v ∈ componentOf edges v :=
  subset_growN edges (nodesOf edges).length [v] (List.mem_singleton_self v)

theorem componentOf_sound (edges : List (String × String)) (v : String) :
    ∀ x ∈ componentOf edges v, Reach edges v x := by
  refine growN_sound edges v (nodesOf edges).length [v] ?_
  intro y hy
  rcases List.mem_singleton.mp hy with rfl
  exact Relation.ReflTransGen.refl

theorem componentOf_complete (edges : List (String × String)) (v x : String)
    (h : Reach edges v x) : x ∈ componentOf edges v := by
  induction h with
  | refl => exact mem_componentOf_self edges v
  | tail hab hbc ih => exact componentOf_closed edges v _ ih _ hbc

theorem mem_componentOf_iff (edges : List (String × String)) (v x : String) :
    x ∈ componentOf edges v ↔ Reach edges v x :=
  ⟨componentOf_sound edges v x, componentOf_complete edges v x⟩


theorem componentsAux_mem (edges : List (String × String)) :
    ∀ (vs seen : List String) (c : List String), c ∈ componentsAux edges vs seen →
      ∃ w ∈ vs, c = componentOf edges w := by
  intro vs
  induction vs with
  | nil =>
    intro seen c h
    cases h
  | cons v vs ih =>
    intro seen c h
    by_cases hv : v ∈ seen
    · rw [componentsAux, if_pos hv] at h
      obtain ⟨w, hw, e⟩ := ih seen c h
      exact ⟨w, List.mem_cons_of_mem _ hw, e⟩
    · rw [componentsAux, if_neg hv] at h
      rcases List.mem_cons.mp h with rfl | h'
      · exact ⟨v, List.mem_cons_self _ _, rfl⟩
      · obtain ⟨w, hw, e⟩ := ih _ c h'
        exact ⟨w, List.mem_cons_of_mem _ hw, e⟩

theorem componentsAux_cover (edges : List (String × String)) :
    ∀ (vs seen : List String) (v : String), v ∈ vs →
      v ∈ seen ∨ ∃ c ∈ componentsAux edges vs seen, v ∈ c := by
  intro vs
  induction vs with
  | nil =>
    intro seen v h
    cases h
  | cons w ws ih =>
    intro seen v hv
    by_cases hw : w ∈ seen
    · rw [componentsAux, if_pos hw]
      rcases List.mem_cons.mp hv with rfl | hv'
      · exact Or.inl hw
      · exact ih seen v hv'
    · rw [componentsAux, if_neg hw]
      rcases List.mem_cons.mp hv with rfl | hv'
      · exact Or.inr ⟨componentOf edges v, List.mem_cons_self _ _,
          mem_componentOf_self edges v⟩
      · rcases ih (seen ++ componentOf edges w) v hv' with h | ⟨c, hc, hvc⟩
        · rcases List.mem_append.mp h with h | h
          · exact Or.inl h
          · exact Or.inr ⟨componentOf edges w, List.mem_cons_self _ _, h⟩
        · exact Or.inr ⟨c, List.mem_cons_of_mem _ hc, hvc⟩

theorem connected_components_spec (edges : List (String × String)) (c : List String)
    (h : c ∈ connected_components edges) : ∃ w ∈ nodesOf edges, c = componentOf edges w :=
  componentsAux_mem edges (nodesOf edges) [] c h

theorem connected_components_cover (edges : List (String × String)) (u : String)
    (h : u ∈ nodesOf edges) : ∃ c ∈ connected_components edges, u ∈ c := by
  rcases componentsAux_cover edges (nodesOf edges) [] u h with h' | h'
  · cases h'
  · exact h'

theorem strLtb_irrefl : ∀ l : List Char, strLtb l l = false := by
  intro l
  induction l with
  | nil => rfl
  | cons a as ih => simp [strLtb, ih]

theorem strLtb_trans : ∀ a b c : List Char,
    strLtb a b = true → strLtb b c = true → strLtb a c = true := by
  intro a
  induction a with
  | nil =>
    intro b c h1 h2
    cases b with
    | nil => cases h1
    | cons y ys =>
      cases c with
      | nil => cases h2
      | cons z zs => rfl
  | cons x xs ih =>
    intro b c h1 h2
    cases b with
    | nil => cases h1
    | cons y ys =>
      cases c with
      | nil => cases h2
      | cons z zs =>
        simp only [strLtb, Bool.or_eq_true, Bool.and_eq_true, decide_eq_true_eq] at h1 h2 ⊢
        rcases h1 with h1 | ⟨rfl, h1⟩ <;> rcases h2 with h2 | ⟨rfl, h2⟩
        · left; omega
        · left; exact h1
        · left; exact h2
        · right; exact ⟨rfl, ih ys zs h1 h2⟩

theorem strLtb_connex : ∀ a b : List Char,
    strLtb a b = false → strLtb b a = false → a = b := by
  intro a
  induction a with
  | nil =>
    intro b h1 h2
    cases b with
    | nil => rfl
    | cons y ys => cases h1
  | cons x xs ih =>
    intro b h1 h2
    cases b with
    | nil => cases h2
    | cons y ys =>
      simp only [strLtb, Bool.or_eq_false_iff, Bool.and_eq_false_iff,
        decide_eq_false_iff_not, not_lt] at h1 h2
      obtain ⟨hle1, hor1⟩ := h1
      obtain ⟨hle2, hor2⟩ := h2
      have hxy : x = y := by
        have hnat : x.toNat = y.toNat := by omega
        exact Char.eq_of_val_eq (UInt32.ext hnat)
      subst hxy
      rcases hor1 with h | h
      · exact absurd rfl h
      · rcases hor2 with h' | h'
        · exact absurd rfl h'
        · rw [ih ys h h']



theorem strLeb_trans (a b c : String) (h1 : strLeb a b = true) (h2 : strLeb b c = true) :
    strLeb a c = true := by
  simp only [strLeb, Bool.not_eq_true'] at h1 h2 ⊢
  by_contra hca
  rw [Bool.not_eq_false] at hca
  cases hab : strLtb a.data b.data with
  | true =>
    have hcb := strLtb_trans c.data a.data b.data hca hab
    rw [h2] at hcb
    cases hcb
  | false =>
    have he : a.data = b.data := strLtb_connex a.data b.data hab h1
    rw [he, h2] at hca
    cases hca

theorem strLeb_total (a b : String) : strLeb a b = true ∨ strLeb b a = true := by
  simp only [strLeb, Bool.not_eq_true']
  cases h : strLtb b.data a.data with
  | false => exact Or.inl rfl
  | true =>
    right
    cases h2 : strLtb a.data b.data with
    | false => rfl
    | true =>
      have := strLtb_trans b.data a.data b.data h h2
      rw [strLtb_irrefl] at this
      cases this

theorem sizeGe_trans (a b c : List String) (h1 : sizeGe a b = true) (h2 : sizeGe b c = true) :
    sizeGe a c = true := by
  simp only [sizeGe, decide_eq_true_eq] at h1 h2 ⊢
  omega

theorem sizeGe_total (a b : List String) : sizeGe a b = true ∨ sizeGe b a = true := by
  simp only [sizeGe, decide_eq_true_eq]
  omega

theorem componentsAux_root (edges : List (String × String)) :
    ∀ (vs seen : List String) (c : List String), c ∈ componentsAux edges vs seen →
      ∃ w, c = componentOf edges w ∧ w ∉ seen := by
  intro vs
  induction vs with
  | nil =>
    intro seen c h
    cases h
  | cons v vs ih =>
    intro seen c h
    by_cases hv : v ∈ seen
    · rw [componentsAux, if_pos hv] at h
      exact ih seen c h
    · rw [componentsAux, if_neg hv] at h
      rcases List.mem_cons.mp h with rfl | h'
      · exact ⟨v, rfl, hv⟩
      · obtain ⟨w, e, hw⟩ := ih _ c h'
        exact ⟨w, e, fun hmem => hw (List.mem_append_left _ hmem)⟩

theorem componentsAux_disjoint (edges : List (String × String)) :
    ∀ (vs seen : List String),
      (componentsAux edges vs seen).Pairwise (fun c d => ∀ x ∈ c, x ∉ d) := by
  intro vs
  induction vs with
  | nil =>
    intro seen
    exact List.Pairwise.nil
  | cons v vs ih =>
    intro seen
    by_cases hv : v ∈ seen
    · rw [componentsAux, if_pos hv]
      exact ih seen
    · rw [componentsAux, if_neg hv]
      refine List.Pairwise.cons ?_ (ih _)
      intro d hd x hxc hxd
      obtain ⟨w, rfl, hw⟩ := componentsAux_root edges vs _ d hd
      have hwc : w ∉ componentOf edges v :=
        fun hmem => hw (List.mem_append_right _ hmem)
      have hvx : Reach edges v x := componentOf_sound edges v x hxc
      have hwx : Reach edges w x := componentOf_sound edges w x hxd
      exact hwc (componentOf_complete edges v w
        (Relation.ReflTransGen.trans hvx (reach_symm edges hwx)))


/-- C9: for every non-forfeit game the Pool Partitioner adds exactly the
two teammate edges and the four cross-team edges; an empty game set yields
zero components; and the report lists the graph's connected components —
sorted by descending size, each component's membership sorted
alphabetically, every pool exactly a reachability class of the
teammate/opponent graph, every vertex covered, and no component listed
twice (pairwise disjoint pools). -/
theorem c9_pool_partitioner :
    (∀ row : Row,
      "DEFAULT" ∉ [pyStrip row.partner1, pyStrip row.partner2,
        pyStrip row.opponent1, pyStrip row.opponent2] →
      rowEdges row = [(pyStrip row.partner1, pyStrip row.partner2),
        (pyStrip row.opponent1, pyStrip row.opponent2),
        (pyStrip row.partner1, pyStrip row.opponent1),
        (pyStrip row.partner1, pyStrip row.opponent2),
        (pyStrip row.partner2, pyStrip row.opponent1),
        (pyStrip row.partner2, pyStrip row.opponent2)]) ∧
    poolReport [] = [] ∧
    (∀ rows : List Row, (poolReport rows).Pairwise (fun a b => sizeGe a b = true)) ∧
    (∀ rows : List Row, ∀ pool ∈ poolReport rows,
      pool.Pairwise (fun a b => strLeb a b = true)) ∧
    (∀ rows : List Row, ∀ pool ∈ poolReport rows, ∀ u ∈ pool, ∀ x : String,
      (x ∈ pool ↔ Reach (poolEdges rows) u x)) ∧
    (∀ rows : List Row, ∀ u ∈ nodesOf (poolEdges rows), ∃ pool ∈ poolReport rows, u ∈ pool) ∧
    (∀ rows : List Row, (poolReport rows).Pairwise (fun c d => ∀ x ∈ c, x ∉ d)) := by
  have hmemrep : ∀ (rows : List Row) (pool : List String),
      pool ∈ poolReport rows ↔
        ∃ c ∈ connected_components (poolEdges rows), pool = stableSort strLeb c := by
    intro rows pool
    rw [poolReport, (stableSort_perm sizeGe _).mem_iff, List.mem_map]
    constructor
    · rintro ⟨c, hc, rfl⟩
      exact ⟨c, hc, rfl⟩
    · rintro ⟨c, hc, rfl⟩
      exact ⟨c, hc, rfl⟩
  refine ⟨?_, rfl, ?_, ?_, ?_, ?_, ?_⟩
  · intro row h
    simp only [rowEdges]
    rw [if_neg h]
  · intro rows
    exact pairwise_stableSort sizeGe sizeGe_trans sizeGe_total _
  · intro rows pool hpool
    obtain ⟨c, hc, rfl⟩ := (hmemrep rows pool).mp hpool
    exact pairwise_stableSort strLeb strLeb_trans strLeb_total c
  · intro rows pool hpool u hu x
    obtain ⟨c, hc, rfl⟩ := (hmemrep rows pool).mp hpool
    obtain ⟨w, hw, rfl⟩ := connected_components_spec _ c hc
    have hmem : ∀ y : String,
        y ∈ stableSort strLeb (componentOf (poolEdges rows) w) ↔
          y ∈ componentOf (poolEdges rows) w :=
      fun y => (stableSort_perm strLeb _).mem_iff
    have hu' : Reach (poolEdges rows) w u :=
      componentOf_sound _ w u ((hmem u).mp hu)
    constructor
    · intro hx
      exact Relation.ReflTransGen.trans (reach_symm _ hu')
        (componentOf_sound _ w x ((hmem x).mp hx))
    · intro hux
      exact (hmem x).mpr (componentOf_complete _ w x
        (Relation.ReflTransGen.trans hu' hux))
  · intro rows u hu
    obtain ⟨c, hc, huc⟩ := connected_components_cover _ u hu
    exact ⟨stableSort strLeb c, (hmemrep rows _).mpr ⟨c, hc, rfl⟩,
      (stableSort_perm strLeb _).mem_iff.mpr huc⟩
  · intro rows
    have hperm : (poolReport rows).Perm
        ((connected_components (poolEdges rows)).map (fun c => stableSort strLeb c)) :=
      stableSort_perm sizeGe _
    rw [List.Perm.pairwise_iff (fun h x hxd hxc => h x hxc hxd) hperm, List.pairwise_map]
    have hbase := componentsAux_disjoint (poolEdges rows) (nodesOf (poolEdges rows)) []
    refine List.Pairwise.imp ?_ hbase
    intro c d h x hxc hxd
    exact h x ((stableSort_perm strLeb c).mem_iff.mp hxc)
      ((stableSort_perm strLeb d).mem_iff.mp hxd)

/-- Witness for `c9_pool_partitioner` on a two-pool concrete input. -/
theorem c9_pool_partitioner_witness :
    rowEdges c2_row =
      [("A", "B"), ("C", "D"), ("A", "C"), ("A", "D"), ("B", "C"), ("B", "D")] ∧
    poolReport [] = [] ∧
    (poolReport c9_rows).Pairwise (fun a b => sizeGe a b = true) ∧
    (["A", "B", "C", "D"].Pairwise (fun a b => strLeb a b = true)) ∧
    ("B" ∈ ["A", "B", "C", "D"] ↔ Reach (poolEdges c9_rows) "A" "B") ∧
    "E" ∈ (poolReport c9_rows).flatten := by
  obtain ⟨h1, h2, h3, h4, h5, h6, -⟩ := c9_pool_partitioner
  refine ⟨?_, h2, h3 c9_rows, ?_, ?_, ?_⟩
  · have := h1 c2_row (by decide)
    simpa [(by decide : pyStrip c2_row.partner1 = "A"),
      (by decide : pyStrip c2_row.partner2 = "B"),
      (by decide : pyStrip c2_row.opponent1 = "C"),
      (by decide : pyStrip c2_row.opponent2 = "D")] using this
  · exact h4 c9_rows ["A", "B", "C", "D"] (by decide)
  · exact h5 c9_rows ["A", "B", "C", "D"] (by decide) "A" (by decide) "B"
  · obtain ⟨pool, hp, hu⟩ := h6 c9_rows "E" (by decide)
    exact List.mem_flatten.mpr ⟨pool, hp, hu⟩

end PickleEyes



